import Mathlib

/-!
# Verification of the buildarr-sonarr reconciliation core

Shallow embedding of the reconciliation engine of the `buildarr_sonarr`
plugin, together with proofs about its behaviour.  Python dictionaries are
modelled as association lists with insertion-order semantics (later
duplicate keys overwrite the value but keep the first occurrence's
position), fallible code returns `Except`, and remote API mutations are
recorded as explicit call traces.
-/

/- ------------------------------------------------------------------ -/
/- Python-style primitives used throughout the embedding              -/
/- ------------------------------------------------------------------ -/

/-- Python exceptions that the embedded code can raise. -/
inductive PyErr where
  /-- `StopIteration`, raised by `next()` on an exhausted iterator. -/
  | stopIteration : PyErr
  /-- `KeyError`, raised by unguarded `d[k]` indexing on a missing key. -/
  | keyError (k : Int) : PyErr
  /-- `SonarrConfigUnsupportedError` from `buildarr_sonarr.exceptions`. -/
  | sonarrConfigUnsupportedError : PyErr
deriving DecidableEq, Repr

/-- Python `any` over a list of booleans (the argument list is fully
built before `any` is applied, so building it never short-circuits). -/
def pyAny (l : List Bool) : Bool :=
  l.any (fun b => b)

/-- Insert `(k, v)` into an association list with Python `dict`
assignment semantics: an existing key keeps its position but its value is
overwritten; a new key is appended at the end. -/
def pyDictInsert {α : Type} (d : List (Int × α)) (k : Int) (v : α) :
    List (Int × α) :=
  match d with
  | [] => [(k, v)]
  | (k0, v0) :: rest =>
      if k0 = k then (k, v) :: rest else (k0, v0) :: pyDictInsert rest k v

/-- Build a Python dict (keyed association list) from a list, as a dict
comprehension `{key(x): x for x in xs}` does. -/
def pyDictOfList {α : Type} (key : α → Int) (xs : List α) : List (Int × α) :=
  xs.foldl (fun d x => pyDictInsert d (key x) x) []

/-- Python `d[k]` / `d.get(k)` lookup (as an `Option`). -/
def pyDictLookup {α : Type} (d : List (Int × α)) (k : Int) : Option α :=
  (d.find? (fun p => p.fst = k)).map Prod.snd

/-- Python `k in d` membership test. -/
def pyDictContains {α : Type} (d : List (Int × α)) (k : Int) : Bool :=
  d.any (fun p => p.fst = k)

/-- Python `d.values()` in insertion order. -/
def pyDictValues {α : Type} (d : List (Int × α)) : List α :=
  d.map Prod.snd

/- ------------------------------------------------------------------ -/
/- Settings orchestrator (config/settings/ init .py)                  -/
/- ------------------------------------------------------------------ -/

/-- The ten settings sections composed by `SonarrSettings`. -/
inductive Section where
  | tags | quality | custom_formats | download_clients | indexers
  | media_management | profiles | metadata | general | ui
deriving DecidableEq, Repr

/-- World state threaded through the section calls: a trace of opaque
side effects (each section's remote mutations). -/
abbrev World : Type := List Nat

/-- `SonarrSettings.update_remote`: evaluates the ten section
`update_remote` calls in the order of the list literal in the source
(tags, quality, custom_formats, download_clients, indexers,
media_management, profiles, metadata, general, ui), building the full
list of their results, and returns Python `any` of that list.  Each
section is an effectful call `World → Bool × World`. -/
def SonarrSettings.update_remote (f : Section → World → Bool × World)
    (w : World) : Bool × World :=
  let (b1, w1) := f Section.tags w
  let (b2, w2) := f Section.quality w1
  let (b3, w3) := f Section.custom_formats w2
  let (b4, w4) := f Section.download_clients w3
  let (b5, w5) := f Section.indexers w4
  let (b6, w6) := f Section.media_management w5
  let (b7, w7) := f Section.profiles w6
  let (b8, w8) := f Section.metadata w7
  let (b9, w9) := f Section.general w8
  let (b10, w10) := f Section.ui w9
  (pyAny [b1, b2, b3, b4, b5, b6, b7, b8, b9, b10], w10)

/-- `SonarrSettings.delete_remote`: evaluates the ten section
`delete_remote` calls in the order of the list literal in the source
(profiles, indexers, download_clients, media_management, tags,
custom_formats, quality, metadata, general, ui), and returns Python
`any` of the list of results. -/
def SonarrSettings.delete_remote (f : Section → World → Bool × World)
    (w : World) : Bool × World :=
  let (b1, w1) := f Section.profiles w
  let (b2, w2) := f Section.indexers w1
  let (b3, w3) := f Section.download_clients w2
  let (b4, w4) := f Section.media_management w3
  let (b5, w5) := f Section.tags w4
  let (b6, w6) := f Section.custom_formats w5
  let (b7, w7) := f Section.quality w6
  let (b8, w8) := f Section.metadata w7
  let (b9, w9) := f Section.general w8
  let (b10, w10) := f Section.ui w9
  (pyAny [b1, b2, b3, b4, b5, b6, b7, b8, b9, b10], w10)

/-- A section behaviour that reports change flag `b s` and appends its
own effect trace `e s` to the world: the general shape of a pure-trace
section call. -/
def sectionRun (b : Section → Bool) (e : Section → World) :
    Section → World → Bool × World :=
  fun s w => (b s, w ++ e s)

/-- C1: `SonarrSettings.update_remote` evaluates all ten section updates
in the fixed order tags, quality, custom_formats, download_clients,
indexers, media_management, profiles, metadata, general, ui — every
section's effects land in the final world regardless of earlier results
(no short-circuiting) — and it returns `true` iff at least one section
reported a change. -/
theorem SonarrSettings.update_remote_order_any
    (b : Section → Bool) (e : Section → World) (w : World) :
    SonarrSettings.update_remote (sectionRun b e) w =
      (pyAny [b Section.tags, b Section.quality, b Section.custom_formats,
              b Section.download_clients, b Section.indexers,
              b Section.media_management, b Section.profiles,
              b Section.metadata, b Section.general, b Section.ui],
        w ++ e Section.tags ++ e Section.quality ++ e Section.custom_formats
          ++ e Section.download_clients ++ e Section.indexers
          ++ e Section.media_management ++ e Section.profiles
          ++ e Section.metadata ++ e Section.general ++ e Section.ui) ∧
    ((SonarrSettings.update_remote (sectionRun b e) w).fst = true ↔
      (b Section.tags = true ∨ b Section.quality = true ∨
       b Section.custom_formats = true ∨ b Section.download_clients = true ∨
       b Section.indexers = true ∨ b Section.media_management = true ∨
       b Section.profiles = true ∨ b Section.metadata = true ∨
       b Section.general = true ∨ b Section.ui = true)) := by
  constructor
  · rfl
  · simp [SonarrSettings.update_remote, sectionRun, pyAny, List.any,
      Bool.or_eq_true, or_assoc]

/-- C2: `SonarrSettings.delete_remote` evaluates all ten section
deletion passes in the fixed order profiles, indexers, download_clients,
media_management, tags, custom_formats, quality, metadata, general, ui
(indexers strictly before download_clients) — every section executes —
and it returns `true` iff at least one section reported a change. -/
theorem SonarrSettings.delete_remote_order_any
    (b : Section → Bool) (e : Section → World) (w : World) :
    SonarrSettings.delete_remote (sectionRun b e) w =
      (pyAny [b Section.profiles, b Section.indexers,
              b Section.download_clients, b Section.media_management,
              b Section.tags, b Section.custom_formats, b Section.quality,
              b Section.metadata, b Section.general, b Section.ui],
        w ++ e Section.profiles ++ e Section.indexers
          ++ e Section.download_clients ++ e Section.media_management
          ++ e Section.tags ++ e Section.custom_formats ++ e Section.quality
          ++ e Section.metadata ++ e Section.general ++ e Section.ui) ∧
    ((SonarrSettings.delete_remote (sectionRun b e) w).fst = true ↔
      (b Section.profiles = true ∨ b Section.indexers = true ∨
       b Section.download_clients = true ∨ b Section.media_management = true ∨
       b Section.tags = true ∨ b Section.custom_formats = true ∨
       b Section.quality = true ∨ b Section.metadata = true ∨
       b Section.general = true ∨ b Section.ui = true)) := by
  constructor
  · rfl
  · simp [SonarrSettings.delete_remote, sectionRun, pyAny, List.any,
      Bool.or_eq_true, or_assoc]

/- ------------------------------------------------------------------ -/
/- Newznab category codec (config/settings/indexers/util.py)          -/
/- ------------------------------------------------------------------ -/

/-- The Newznab TV category enumeration `NabCategory`. -/
inductive NabCategory where
  | TV | TV_WEBDL | TV_FOREIGN | TV_SD | TV_HD | TV_UHD
  | TV_OTHER | TV_SPORT | TV_ANIME | TV_DOCUMENTARY | TV_X265
deriving DecidableEq, Repr

/-- The canonical integer value of each `NabCategory` member (the first
element of each member's value tuple). -/
def NabCategory.value : NabCategory → Int
  | .TV => 5000
  | .TV_WEBDL => 5010
  | .TV_FOREIGN => 5020
  | .TV_SD => 5030
  | .TV_HD => 5040
  | .TV_UHD => 5045
  | .TV_OTHER => 5050
  | .TV_SPORT => 5060
  | .TV_ANIME => 5070
  | .TV_DOCUMENTARY => 5080
  | .TV_X265 => 5090

/-- Enum construction `NabCategory(v)` on an integer argument: the member
whose canonical integer value is `v`, or `ValueError` (here `none`).
The string aliases of the value tuples never match an integer. -/
def NabCategory.ofValue (v : Int) : Option NabCategory :=
  if v = 5000 then some .TV
  else if v = 5010 then some .TV_WEBDL
  else if v = 5020 then some .TV_FOREIGN
  else if v = 5030 then some .TV_SD
  else if v = 5040 then some .TV_HD
  else if v = 5045 then some .TV_UHD
  else if v = 5050 then some .TV_OTHER
  else if v = 5060 then some .TV_SPORT
  else if v = 5070 then some .TV_ANIME
  else if v = 5080 then some .TV_DOCUMENTARY
  else if v = 5090 then some .TV_X265
  else none

/-- `NabCategory.decode`: try the enum constructor and fall back to the
raw integer on `ValueError`. -/
def NabCategory.decode (v : Int) : NabCategory ⊕ Int :=
  match NabCategory.ofValue v with
  | some c => Sum.inl c
  | none => Sum.inr v

/-- `NabCategory.encode`: pass raw integers through unchanged, and take
the canonical integer value of an enum member. -/
def NabCategory.encode : NabCategory ⊕ Int → Int
  | Sum.inl c => c.value
  | Sum.inr v => v

set_option maxHeartbeats 1000000 in
/-- Inversion of the enum constructor: a successful `NabCategory(v)`
lookup returns the member whose canonical value is `v`. -/
theorem NabCategory.ofValue_value_eq (v : Int) (c : NabCategory)
    (hov : NabCategory.ofValue v = some c) : NabCategory.value c = v := by
  unfold NabCategory.ofValue at hov
  split_ifs at hov <;> cases hov <;> simp_all [NabCategory.value]

/-- C8: the Newznab category codec is an invertible encoder/decoder
pair: `encode (decode v) = v` for every integer `v`, and
`decode (encode c) = c` for every `NabCategory` member `c`. -/
theorem NabCategory.codec_roundTrip :
    (∀ v : Int, NabCategory.encode (NabCategory.decode v) = v) ∧
    (∀ c : NabCategory,
      NabCategory.decode (NabCategory.encode (Sum.inl c)) = Sum.inl c) := by
  constructor
  · intro v
    unfold NabCategory.decode
    cases hov : NabCategory.ofValue v with
    | none => rfl
    | some c => exact NabCategory.ofValue_value_eq v c hov
  · intro c
    cases c <;> rfl

/- ------------------------------------------------------------------ -/
/- Tags settings (config/settings/tags.py)                            -/
/- ------------------------------------------------------------------ -/

/-- Calls issued against the Sonarr tag API. -/
inductive TagApiCall where
  | create (label : String) : TagApiCall
  | update (id : Nat) (label : String) : TagApiCall
  | delete (id : Nat) : TagApiCall
deriving DecidableEq, Repr

/-- The loop body of `SonarrTagsSettings.update_remote`: for each local
tag label in order, if the label is among the freshly listed remote tag
labels, do nothing; otherwise issue one `create_tag` call and set the
changed flag. -/
def SonarrTagsSettings.updateLoop (currentLabels : List String) :
    List String → Bool × List TagApiCall
  | [] => (false, [])
  | t :: rest =>
      let pr := SonarrTagsSettings.updateLoop currentLabels rest
      if currentLabels.contains t then pr
      else (true, TagApiCall.create t :: pr.snd)

/-- `SonarrTagsSettings.update_remote`: fetch the fresh remote tag list
(`current_tags`, a label-to-id dict), and when local definitions are
non-empty, create every local label absent from it.  Returns the changed
flag and the trace of API calls. -/
def SonarrTagsSettings.update_remote (definitions : List String)
    (current_tags : List (String × Nat)) : Bool × List TagApiCall :=
  if definitions.isEmpty then (false, [])
  else SonarrTagsSettings.updateLoop (current_tags.map Prod.fst) definitions

/-- Characterisation of the tags update loop: the changed flag is `any
label absent`, and the call trace creates exactly the absent labels in
order. -/
theorem SonarrTagsSettings.tagUpdateLoop_spec (currentLabels : List String)
    (defs : List String) :
    SonarrTagsSettings.updateLoop currentLabels defs =
      (defs.any (fun t => !(currentLabels.contains t)),
        (defs.filter (fun t => !(currentLabels.contains t))).map
          TagApiCall.create) := by
  induction defs with
  | nil => rfl
  | cons t rest ih =>
      simp only [SonarrTagsSettings.updateLoop, ih]
      by_cases h : currentLabels.contains t = true
      · rw [if_pos h, List.any_cons, List.filter_cons, h]
        simp
      · rw [if_neg h, List.any_cons, List.filter_cons,
          Bool.eq_false_iff.mpr h]
        simp

/-- C5: `SonarrTagsSettings.update_remote` returns `changed = true` iff
at least one local label is absent from the freshly listed remote tags;
its call trace is exactly one `create` per absent label (in order), so
for nodup local labels each absent label is created exactly once,
already-present labels trigger zero calls of any kind, and when every
local label already exists remotely the result is `(false, [])`. -/
theorem SonarrTagsSettings.update_remote_spec (defs : List String)
    (current : List (String × Nat)) (hnd : defs.Nodup) :
    ((SonarrTagsSettings.update_remote defs current).fst = true ↔
      ∃ t ∈ defs, ¬ (current.map Prod.fst).contains t = true) ∧
    (SonarrTagsSettings.update_remote defs current).snd =
      (defs.filter (fun t => !((current.map Prod.fst).contains t))).map
        TagApiCall.create ∧
    (∀ t, t ∈ defs → ¬ (current.map Prod.fst).contains t = true →
      ((SonarrTagsSettings.update_remote defs current).snd.count
        (TagApiCall.create t)) = 1) ∧
    (∀ t, (current.map Prod.fst).contains t = true →
      ((SonarrTagsSettings.update_remote defs current).snd.count
        (TagApiCall.create t)) = 0) ∧
    ((∀ t ∈ defs, (current.map Prod.fst).contains t = true) →
      SonarrTagsSettings.update_remote defs current = (false, [])) := by
  have hmain : SonarrTagsSettings.update_remote defs current =
      (defs.any (fun t => !((current.map Prod.fst).contains t)),
        (defs.filter (fun t => !((current.map Prod.fst).contains t))).map
          TagApiCall.create) := by
    unfold SonarrTagsSettings.update_remote
    by_cases hd : defs.isEmpty
    · rw [if_pos hd]
      rw [List.isEmpty_iff] at hd
      subst hd
      rfl
    · rw [if_neg hd, SonarrTagsSettings.tagUpdateLoop_spec]
  refine ⟨?_, ?_, ?_, ?_, ?_⟩
  · rw [hmain]
    simp [List.any_eq_true]
  · rw [hmain]
  · intro t ht hab
    rw [hmain]
    have hinj : Function.Injective TagApiCall.create := by
      intro a b hab2
      cases hab2
      rfl
    rw [List.count_map_of_injective _ _ hinj]
    have hcf : (current.map Prod.fst).contains t = false :=
      Bool.eq_false_iff.mpr hab
    have htf : t ∈ defs.filter
        (fun t => !((current.map Prod.fst).contains t)) := by
      rw [List.mem_filter]
      exact ⟨ht, by rw [hcf]; rfl⟩
    exact List.count_eq_one_of_mem (hnd.filter _) htf
  · intro t hpres
    rw [hmain]
    rw [List.count_eq_zero]
    intro hmem
    rw [List.mem_map] at hmem
    obtain ⟨u, hu, hequ⟩ := hmem
    injection hequ with hut
    subst hut
    rw [List.mem_filter] at hu
    obtain ⟨hud, hub⟩ := hu
    rw [hpres] at hub
    exact absurd hub (by decide)
  · intro hall
    rw [hmain]
    have h1 : defs.any (fun t => !((current.map Prod.fst).contains t))
        = false := by
      rw [List.any_eq_false]
      intro t ht
      rw [hall t ht]
      decide
    have h2 : defs.filter (fun t => !((current.map Prod.fst).contains t))
        = [] := by
      rw [List.filter_eq_nil_iff]
      intro t ht
      rw [hall t ht]
      decide
    rw [h1, h2]
    rfl

/-- Witness for C5 at a concrete input. -/
theorem SonarrTagsSettings.update_remote_spec_witness :
    (SonarrTagsSettings.update_remote ["anime", "shows"] [("shows", 1)]).fst
      = true := by
  have h := SonarrTagsSettings.update_remote_spec ["anime", "shows"]
    [("shows", 1)] (by decide)
  exact h.1.mpr ⟨"anime", by decide, by decide⟩

/- ------------------------------------------------------------------ -/
/- Download clients (config/settings/download_clients/base.py)        -/
/- ------------------------------------------------------------------ -/

/-- ASCII lower-casing of one character, as Python `str.lower` does on
the ASCII implementation names. -/
def lowerChar (c : Char) : Char :=
  if c.isUpper then Char.ofNat (c.toNat + 32) else c

/-- Python `s.lower()` on an ASCII string, as the list of lowered
characters. -/
def strLower (s : String) : List Char :=
  s.data.map lowerChar

/-- One remote schema entry from the download client schema catalog:
the implementation name plus its `to_dict()` attribute mapping. -/
structure ApiSchemaResource (α : Type) where
  implementation : String
  attrs : List (String × α)
deriving DecidableEq, Repr

/-- `DownloadClient._get_api_schema`: find the first schema whose
implementation name matches the client's declared implementation
case-insensitively, and return its attributes with the `id` and `name`
keys removed.  The `next()` call on the filtering generator raises
`StopIteration` when no schema matches. -/
def DownloadClient.getApiSchema {α : Type} (impl : String)
    (schemas : List (ApiSchemaResource α)) :
    Except PyErr (List (String × α)) :=
  match schemas.find? (fun s => strLower s.implementation = strLower impl) with
  | some s =>
      Except.ok (s.attrs.filter (fun kv => ¬ (kv.fst = "id" ∨ kv.fst = "name")))
  | none => Except.error PyErr.stopIteration

/-- Decidable equality of `Except` results, for evaluating the embedded
fallible functions on concrete inputs. -/
instance exceptDecEq {ε α : Type} [DecidableEq ε] [DecidableEq α] :
    DecidableEq (Except ε α)
  | Except.ok a, Except.ok b =>
      if h : a = b then Decidable.isTrue (by rw [h])
      else Decidable.isFalse (fun hh => h (Except.ok.inj hh))
  | Except.ok _, Except.error _ =>
      Decidable.isFalse (fun hh => Except.noConfusion hh)
  | Except.error _, Except.ok _ =>
      Decidable.isFalse (fun hh => Except.noConfusion hh)
  | Except.error e, Except.error f =>
      if h : e = f then Decidable.isTrue (by rw [h])
      else Decidable.isFalse (fun hh => h (Except.error.inj hh))

/-- C3: when the declared implementation type has no case-insensitive
match in the remote schema catalog, `DownloadClient._get_api_schema`
fails with a bare `StopIteration` from `next()` — not with the plugin's
`SonarrConfigUnsupportedError` as the spec states (that exception class
is documented for exactly this situation but is never raised anywhere
in the plugin).  Shown at the concrete input: implementation
`Transmission` against a catalog holding only `Sabnzbd`. -/
theorem DownloadClient.getApiSchema_missing_schema_stopIteration :
    DownloadClient.getApiSchema "Transmission"
        [ApiSchemaResource.mk "Sabnzbd" [("port", (8080 : Int))]] =
      Except.error PyErr.stopIteration ∧
    (Except.error PyErr.stopIteration :
        Except PyErr (List (String × Int))) ≠
      Except.error PyErr.sonarrConfigUnsupportedError := by
  constructor
  · decide
  · decide

/-- One `{name, value}` record of a plugin field list.  `extra` holds
the record's remaining keys, which `{**f, "value": v}` preserves. -/
structure ApiField (α : Type) where
  name : String
  value : α
  extra : List (String × α)
deriving DecidableEq, Repr

/-- The `field_values` dict built from the locally computed field list
(`{field["name"]: field["value"] for field in ...}`): Python dict
comprehension semantics make a repeated name keep its last value. -/
def fieldValuesLookup {α : Type} (computed : List (ApiField α))
    (n : String) : Option α :=
  (computed.reverse.find? (fun f => f.name = n)).map ApiField.value

/-- The field-list merge common to `DownloadClient._create_remote` and
`DownloadClient._update_remote`: map over the remote-side field list
(the schema's fields, respectively the live resource's fields) and
substitute the computed value where the name is among the computed
names, passing every other entry through unchanged. -/
def DownloadClient.mergeFieldValues {α : Type}
    (computed : List (ApiField α)) (remoteFields : List (ApiField α)) :
    List (ApiField α) :=
  remoteFields.map (fun f =>
    match fieldValuesLookup computed f.name with
    | some v => { f with value := v }
    | none => f)

/-- A name is absent from the computed field list iff the
`field_values` lookup misses. -/
theorem fieldValuesLookup_eq_none_iff {α : Type}
    (computed : List (ApiField α)) (n : String) :
    fieldValuesLookup computed n = none ↔
      ∀ c ∈ computed, c.name ≠ n := by
  unfold fieldValuesLookup
  rw [Option.map_eq_none', List.find?_eq_none]
  constructor
  · intro h c hc
    have := h c (List.mem_reverse.mpr hc)
    simpa using this
  · intro h c hc
    have := h c (List.mem_reverse.mp hc)
    simpa using this

/-- C7: the field-list merge of `_create_remote` / `_update_remote` is
framing-preserving: the output has the same length (and order, being an
index-wise map) as the remote-side field list; an entry whose name is
not among the computed names appears unchanged at its index; an entry
whose name is computed appears at its index with only its value
replaced by the computed value. -/
theorem DownloadClient.mergeFieldValues_frame {α : Type}
    (computed remoteFields : List (ApiField α)) :
    ((DownloadClient.mergeFieldValues computed remoteFields).length =
      remoteFields.length) ∧
    (∀ i f, remoteFields.get? i = some f →
      (∀ c ∈ computed, c.name ≠ f.name) →
      (DownloadClient.mergeFieldValues computed remoteFields).get? i =
        some f) ∧
    (∀ i f v, remoteFields.get? i = some f →
      fieldValuesLookup computed f.name = some v →
      (DownloadClient.mergeFieldValues computed remoteFields).get? i =
        some (ApiField.mk f.name v f.extra)) := by
  refine ⟨List.length_map _ _, ?_, ?_⟩
  · intro i f hget habs
    unfold DownloadClient.mergeFieldValues
    rw [List.get?_map, hget]
    have hnone : fieldValuesLookup computed f.name = none :=
      (fieldValuesLookup_eq_none_iff computed f.name).mpr habs
    simp [hnone]
  · intro i f v hget hv
    unfold DownloadClient.mergeFieldValues
    rw [List.get?_map, hget]
    simp [hv]

/-- Witness for C7 at a concrete input: one computed field `port`
merged into a remote field list `host, port`. -/
theorem DownloadClient.mergeFieldValues_frame_witness :
    (DownloadClient.mergeFieldValues
        [ApiField.mk "port" (9091 : Int) []]
        [ApiField.mk "host" (0 : Int) [("order", 1)],
         ApiField.mk "port" (8080 : Int) []]).get? 0 =
      some (ApiField.mk "host" (0 : Int) [("order", 1)]) ∧
    (DownloadClient.mergeFieldValues
        [ApiField.mk "port" (9091 : Int) []]
        [ApiField.mk "host" (0 : Int) [("order", 1)],
         ApiField.mk "port" (8080 : Int) []]).get? 1 =
      some (ApiField.mk "port" (9091 : Int) []) := by
  constructor
  · exact (DownloadClient.mergeFieldValues_frame
      [ApiField.mk "port" (9091 : Int) []]
      [ApiField.mk "host" (0 : Int) [("order", 1)],
       ApiField.mk "port" (8080 : Int) []]).2.1 0
      (ApiField.mk "host" (0 : Int) [("order", 1)]) rfl (by decide)
  · exact (DownloadClient.mergeFieldValues_frame
      [ApiField.mk "port" (9091 : Int) []]
      [ApiField.mk "host" (0 : Int) [("order", 1)],
       ApiField.mk "port" (8080 : Int) []]).2.2 1
      (ApiField.mk "port" (8080 : Int) []) (9091 : Int) rfl rfl

/- ------------------------------------------------------------------ -/
/- List exclusions (config/settings/lists/exclusions.py)              -/
/- ------------------------------------------------------------------ -/

/-- A local `ListExclusion` config object: the fields of its
`_remote_map` (`tmdb_id`, `title`, `year`). -/
structure ListExclusion where
  tmdb_id : Int
  title : String
  year : Int
deriving DecidableEq, Repr

/-- A remote `ImportExclusionsResource`: the remote-assigned integer
`id` plus the mapped attributes. -/
structure ApiExclusion where
  id : Nat
  tmdb_id : Int
  title : String
  year : Int
deriving DecidableEq, Repr

/-- Calls issued against the Sonarr import exclusions API. -/
inductive ExclusionApiCall where
  | create (e : ListExclusion) : ExclusionApiCall
  | update (id : Nat) (e : ListExclusion) : ExclusionApiCall
  | delete (id : Nat) : ExclusionApiCall
deriving DecidableEq, Repr

/-- Modelled from the spec: buildarr's `get_update_remote_attrs`
(Change Detector, spec section 4.2), which is not part of this plugin's
sources, reports a change iff some field mapped by `_remote_map`
(`tmdb_id`, `title`, `year`) differs between the local and the
remote-derived object. -/
def exclusionChanged (lcl rmt : ListExclusion) : Bool :=
  decide (¬ lcl = rmt)

/-- The per-entry loop of `ListExclusionsSettings.update_remote`: an
entry whose `tmdb_id` is absent from the remote snapshot dict is
created; otherwise the resource id is fetched by unguarded indexing
into the fresh API listing dict (raising `KeyError` when absent) and an
update call is issued iff the diff reported a change. -/
def ListExclusionsSettings.updateLoop (apiD : List (Int × ApiExclusion))
    (remoteD : List (Int × ListExclusion)) :
    List ListExclusion → Except PyErr (Bool × List ExclusionApiCall)
  | [] => Except.ok (false, [])
  | e :: rest =>
      match pyDictLookup remoteD e.tmdb_id with
      | none =>
          (ListExclusionsSettings.updateLoop apiD remoteD rest).map
            (fun pr => (true, ExclusionApiCall.create e :: pr.snd))
      | some r =>
          match pyDictLookup apiD e.tmdb_id with
          | none => Except.error (PyErr.keyError e.tmdb_id)
          | some api =>
              (ListExclusionsSettings.updateLoop apiD remoteD rest).map
                (fun pr =>
                  (exclusionChanged e r || pr.fst,
                    (if exclusionChanged e r
                      then [ExclusionApiCall.update api.id e]
                      else []) ++ pr.snd))

/-- `ListExclusionsSettings.update_remote`: build the fresh API listing
dict, the local dict and the remote snapshot dict (all keyed by
`tmdb_id`), then run the per-entry loop over the local dict's values. -/
def ListExclusionsSettings.update_remote
    (localDefs remoteDefs : List ListExclusion)
    (apiListing : List ApiExclusion) :
    Except PyErr (Bool × List ExclusionApiCall) :=
  ListExclusionsSettings.updateLoop
    (pyDictOfList ApiExclusion.tmdb_id apiListing)
    (pyDictOfList ListExclusion.tmdb_id remoteDefs)
    (pyDictValues (pyDictOfList ListExclusion.tmdb_id localDefs))

/-- The per-entry loop of `ListExclusionsSettings.delete_remote`,
threading the log index `i` (initially `-1`, incremented by `i -= -1`
after each unmanaged entry).  Returns the changed flag, the delete-call
trace, and the list of log indices used for unmanaged entries. -/
def ListExclusionsSettings.deleteLoop (flag : Bool)
    (localD : List (Int × ListExclusion))
    (apiD : List (Int × ApiExclusion)) :
    List ListExclusion → Int →
      Except PyErr (Bool × List ExclusionApiCall × List Int)
  | [], _ => Except.ok (false, [], [])
  | e :: rest, i =>
      if pyDictContains localD e.tmdb_id then
        ListExclusionsSettings.deleteLoop flag localD apiD rest i
      else if flag then
        match pyDictLookup apiD e.tmdb_id with
        | none => Except.error (PyErr.keyError e.tmdb_id)
        | some api =>
            (ListExclusionsSettings.deleteLoop flag localD apiD rest
                (i + 1)).map
              (fun tr =>
                (true, ExclusionApiCall.delete api.id :: tr.snd.fst,
                  i :: tr.snd.snd))
      else
        (ListExclusionsSettings.deleteLoop flag localD apiD rest
            (i + 1)).map
          (fun tr => (tr.fst, tr.snd.fst, i :: tr.snd.snd))

/-- `ListExclusionsSettings.delete_remote`: build the dicts keyed by
`tmdb_id` and run the deletion loop over the remote snapshot dict's
values with the index starting at `-1`. -/
def ListExclusionsSettings.delete_remote (delete_unmanaged : Bool)
    (localDefs remoteDefs : List ListExclusion)
    (apiListing : List ApiExclusion) :
    Except PyErr (Bool × List ExclusionApiCall × List Int) :=
  ListExclusionsSettings.deleteLoop delete_unmanaged
    (pyDictOfList ListExclusion.tmdb_id localDefs)
    (pyDictOfList ApiExclusion.tmdb_id apiListing)
    (pyDictValues (pyDictOfList ListExclusion.tmdb_id remoteDefs))
    (-1)

/- ------------------------------------------------------------------ -/
/- Dictionary lemmas                                                  -/
/- ------------------------------------------------------------------ -/

/-- Inserting a fresh key appends it at the end. -/
theorem pyDictInsert_of_not_contains {α : Type} (d : List (Int × α))
    (k : Int) (v : α) (h : pyDictContains d k = false) :
    pyDictInsert d k v = d ++ [(k, v)] := by
  induction d with
  | nil => rfl
  | cons p rest ih =>
      obtain ⟨k0, v0⟩ := p
      unfold pyDictContains at h
      rw [List.any_cons] at h
      rw [Bool.or_eq_false_iff] at h
      unfold pyDictInsert
      rw [if_neg (by simpa using h.1)]
      rw [ih h.2]
      rfl

/-- Membership in an insert. -/
theorem pyDictContains_insert {α : Type} (d : List (Int × α))
    (k0 k : Int) (v : α) :
    pyDictContains (pyDictInsert d k0 v) k =
      (pyDictContains d k || decide (k0 = k)) := by
  induction d with
  | nil => simp [pyDictInsert, pyDictContains]
  | cons p rest ih =>
      obtain ⟨k1, v1⟩ := p
      unfold pyDictInsert
      by_cases h : k1 = k0
      · rw [if_pos h]
        unfold pyDictContains
        rw [List.any_cons, List.any_cons]
        subst h
        simp [Bool.or_comm, Bool.or_assoc, Bool.or_left_comm]
      · rw [if_neg h]
        unfold pyDictContains
        rw [List.any_cons, List.any_cons]
        unfold pyDictContains at ih
        rw [ih]
        simp [Bool.or_assoc]

/-- The keys of a dict built from a list are exactly the keys of the
list elements. -/
theorem pyDictContains_ofList {α : Type} (key : α → Int) (xs : List α)
    (k : Int) :
    pyDictContains (pyDictOfList key xs) k =
      xs.any (fun x => key x = k) := by
  suffices h : ∀ acc : List (Int × α),
      pyDictContains (xs.foldl (fun d x => pyDictInsert d (key x) x) acc) k =
        (pyDictContains acc k || xs.any (fun x => key x = k)) by
    have h2 := h []
    rw [pyDictOfList]
    rw [h2]
    simp [pyDictContains]
  induction xs with
  | nil => simp
  | cons x rest ih =>
      intro acc
      rw [List.foldl_cons, ih, pyDictContains_insert, List.any_cons]
      simp [Bool.or_assoc]

/-- On key-nodup input lists the dict is the list of key-value pairs in
order. -/
theorem pyDictOfList_of_nodup {α : Type} (key : α → Int) (xs : List α)
    (h : (xs.map key).Nodup) :
    pyDictOfList key xs = xs.map (fun x => (key x, x)) := by
  suffices hgen : ∀ acc : List (Int × α),
      (∀ x ∈ xs, pyDictContains acc (key x) = false) →
      xs.foldl (fun d x => pyDictInsert d (key x) x) acc =
        acc ++ xs.map (fun x => (key x, x)) by
    have h2 := hgen [] (fun x _ => rfl)
    rw [pyDictOfList, h2]
    rfl
  induction xs with
  | nil =>
      intro acc _
      simp
  | cons x rest ih =>
      intro acc hacc
      rw [List.map_cons] at h
      rw [List.nodup_cons] at h
      rw [List.foldl_cons]
      rw [pyDictInsert_of_not_contains acc (key x) x
        (hacc x (List.mem_cons_self x rest))]
      rw [ih h.2 (acc ++ [(key x, x)]) ?_]
      · rw [List.map_cons, List.append_assoc]
        rfl
      · intro y hy
        unfold pyDictContains
        rw [List.any_append]
        rw [Bool.or_eq_false_iff]
        constructor
        · exact hacc y (List.mem_cons_of_mem x hy)
        · have hne : key x ≠ key y := by
            intro he
            exact h.1 (he ▸ List.mem_map_of_mem key hy)
          simp [pyDictContains]
          intro he
          exact hne he

/-- Lookup in a dict built from a key-nodup list is `find?` by key on
the original list. -/
theorem pyDictLookup_ofList_of_nodup {α : Type} (key : α → Int)
    (xs : List α) (h : (xs.map key).Nodup) (k : Int) :
    pyDictLookup (pyDictOfList key xs) k =
      xs.find? (fun x => key x = k) := by
  rw [pyDictOfList_of_nodup key xs h]
  induction xs with
  | nil => rfl
  | cons x rest ih =>
      rw [List.map_cons, List.nodup_cons] at h
      unfold pyDictLookup
      rw [List.map_cons, List.find?_cons, List.find?_cons]
      by_cases hk : key x = k
      · simp [hk]
      · have hd1 : (decide ((key x, x).fst = k)) = false := by simp [hk]
        rw [hd1]
        exact ih h.2

/-- The values of a dict built from a key-nodup list are the list
itself. -/
theorem pyDictValues_ofList_of_nodup {α : Type} (key : α → Int)
    (xs : List α) (h : (xs.map key).Nodup) :
    pyDictValues (pyDictOfList key xs) = xs := by
  rw [pyDictOfList_of_nodup key xs h]
  clear h
  induction xs with
  | nil => rfl
  | cons x rest ih =>
      unfold pyDictValues at *
      simp only [List.map_cons]
      rw [ih]

/-- `filterMap` of an everywhere-defined partial function preserves
length. -/
theorem filterMap_length_of_isSome {α β : Type} (f : α → Option β)
    (l : List α) (h : ∀ x ∈ l, (f x).isSome = true) :
    (l.filterMap f).length = l.length := by
  induction l with
  | nil => rfl
  | cons x rest ih =>
      rw [List.filterMap_cons]
      cases hfx : f x with
      | none =>
          have := h x (List.mem_cons_self x rest)
          rw [hfx] at this
          simp at this
      | some b =>
          rw [List.length_cons, List.length_cons]
          rw [ih (fun y hy => h y (List.mem_cons_of_mem x hy))]

/- ------------------------------------------------------------------ -/
/- Exclusion loop characterisations                                   -/
/- ------------------------------------------------------------------ -/

/-- The calls one local entry contributes in the update pass. -/
def exclusionUpdatePlan (apiD : List (Int × ApiExclusion))
    (remoteD : List (Int × ListExclusion)) (e : ListExclusion) :
    List ExclusionApiCall :=
  match pyDictLookup remoteD e.tmdb_id with
  | none => [ExclusionApiCall.create e]
  | some r =>
      match pyDictLookup apiD e.tmdb_id with
      | none => []
      | some api =>
          if exclusionChanged e r then [ExclusionApiCall.update api.id e]
          else []

/-- Whether one local entry reports a change in the update pass. -/
def exclusionEntryChanged (remoteD : List (Int × ListExclusion))
    (e : ListExclusion) : Bool :=
  match pyDictLookup remoteD e.tmdb_id with
  | none => true
  | some r => exclusionChanged e r

/-- The update loop succeeds and is characterised entry-wise whenever
every entry matched in the remote snapshot also occurs in the fresh API
listing. -/
theorem ListExclusionsSettings.updateLoop_spec
    (apiD : List (Int × ApiExclusion))
    (remoteD : List (Int × ListExclusion)) :
    ∀ es : List ListExclusion,
      (∀ e ∈ es, (pyDictLookup remoteD e.tmdb_id).isSome = true →
        (pyDictLookup apiD e.tmdb_id).isSome = true) →
      ListExclusionsSettings.updateLoop apiD remoteD es =
        Except.ok (es.any (exclusionEntryChanged remoteD),
          es.flatMap (exclusionUpdatePlan apiD remoteD)) := by
  intro es
  induction es with
  | nil => intro _; rfl
  | cons e rest ih =>
      intro h
      have hrest := fun x hx => h x (List.mem_cons_of_mem e hx)
      simp only [ListExclusionsSettings.updateLoop]
      rw [List.any_cons, List.flatMap_cons]
      cases hr : pyDictLookup remoteD e.tmdb_id with
      | none =>
          have hec : exclusionEntryChanged remoteD e = true := by
            unfold exclusionEntryChanged
            rw [hr]
          have hup : exclusionUpdatePlan apiD remoteD e =
              [ExclusionApiCall.create e] := by
            unfold exclusionUpdatePlan
            rw [hr]
          rw [ih hrest, hec, hup]
          rfl
      | some r =>
          cases ha : pyDictLookup apiD e.tmdb_id with
          | none =>
              have := h e (List.mem_cons_self e rest) (by rw [hr]; rfl)
              rw [ha] at this
              simp at this
          | some a =>
              have hec : exclusionEntryChanged remoteD e =
                  exclusionChanged e r := by
                unfold exclusionEntryChanged
                rw [hr]
              have hup : exclusionUpdatePlan apiD remoteD e =
                  (if exclusionChanged e r
                    then [ExclusionApiCall.update a.id e] else []) := by
                unfold exclusionUpdatePlan
                rw [hr, ha]
              rw [ih hrest, hec, hup]
              rfl

/-- The update loop raises `KeyError` whenever some entry is matched in
the remote snapshot but missing from the fresh API listing. -/
theorem ListExclusionsSettings.updateLoop_keyError
    (apiD : List (Int × ApiExclusion))
    (remoteD : List (Int × ListExclusion)) :
    ∀ es : List ListExclusion,
      (∃ e ∈ es, (pyDictLookup remoteD e.tmdb_id).isSome = true ∧
        pyDictLookup apiD e.tmdb_id = none) →
      ∃ k : Int,
        ListExclusionsSettings.updateLoop apiD remoteD es =
          Except.error (PyErr.keyError k) ∧
        (pyDictLookup remoteD k).isSome = true ∧
        pyDictLookup apiD k = none := by
  intro es
  induction es with
  | nil =>
      intro hex
      obtain ⟨x, hx, _⟩ := hex
      exact absurd hx (List.not_mem_nil x)
  | cons e rest ih =>
      intro hex
      obtain ⟨x, hx, hxr, hxa⟩ := hex
      simp only [ListExclusionsSettings.updateLoop]
      cases hr : pyDictLookup remoteD e.tmdb_id with
      | none =>
          have hxrest : x ∈ rest := by
            rcases List.mem_cons.mp hx with h1 | h1
            · subst h1
              rw [hr] at hxr
              simp at hxr
            · exact h1
          obtain ⟨k, hk, hkr, hka⟩ := ih ⟨x, hxrest, hxr, hxa⟩
          exact ⟨k, by rw [hk]; rfl, hkr, hka⟩
      | some r =>
          cases ha : pyDictLookup apiD e.tmdb_id with
          | none =>
              exact ⟨e.tmdb_id, rfl, by rw [hr]; rfl, ha⟩
          | some a =>
              have hxrest : x ∈ rest := by
                rcases List.mem_cons.mp hx with h1 | h1
                · subst h1
                  rw [ha] at hxa
                  exact absurd hxa (by simp)
                · exact h1
              obtain ⟨k, hk, hkr, hka⟩ := ih ⟨x, hxrest, hxr, hxa⟩
              exact ⟨k, by rw [hk]; rfl, hkr, hka⟩

/-- With `delete_unmanaged` disabled the delete loop issues no calls
and reports no change, only logging. -/
theorem ListExclusionsSettings.deleteLoop_spec_false
    (localD : List (Int × ListExclusion))
    (apiD : List (Int × ApiExclusion)) :
    ∀ (es : List ListExclusion) (i : Int), ∃ ls : List Int,
      ListExclusionsSettings.deleteLoop false localD apiD es i =
        Except.ok (false, [], ls) := by
  intro es
  induction es with
  | nil => intro i; exact ⟨[], rfl⟩
  | cons e rest ih =>
      intro i
      simp only [ListExclusionsSettings.deleteLoop]
      by_cases hc : pyDictContains localD e.tmdb_id = true
      · rw [if_pos hc]
        exact ih i
      · rw [if_neg hc]
        obtain ⟨ls, hls⟩ := ih (i + 1)
        exact ⟨i :: ls, by rw [hls]; rfl⟩

/-- With `delete_unmanaged` enabled the delete loop deletes exactly the
entries whose key is absent from the local dict, using each one's
API-listing id, provided those entries occur in the fresh listing. -/
theorem ListExclusionsSettings.deleteLoop_spec_true
    (localD : List (Int × ListExclusion))
    (apiD : List (Int × ApiExclusion)) :
    ∀ (es : List ListExclusion) (i : Int),
      (∀ e ∈ es, pyDictContains localD e.tmdb_id = false →
        (pyDictLookup apiD e.tmdb_id).isSome = true) →
      ∃ ls : List Int,
        ListExclusionsSettings.deleteLoop true localD apiD es i =
          Except.ok
            (!(es.filter (fun e =>
                !(pyDictContains localD e.tmdb_id))).isEmpty,
              (es.filter (fun e =>
                !(pyDictContains localD e.tmdb_id))).filterMap
                (fun e => (pyDictLookup apiD e.tmdb_id).map
                  (fun a => ExclusionApiCall.delete a.id)),
              ls) := by
  intro es
  induction es with
  | nil => intro i _; exact ⟨[], rfl⟩
  | cons e rest ih =>
      intro i h
      have hrest := fun x hx => h x (List.mem_cons_of_mem e hx)
      simp only [ListExclusionsSettings.deleteLoop]
      rw [List.filter_cons]
      by_cases hc : pyDictContains localD e.tmdb_id = true
      · rw [if_pos hc, hc]
        obtain ⟨ls, hls⟩ := ih i hrest
        exact ⟨ls, by rw [hls]; simp⟩
      · have hcf : pyDictContains localD e.tmdb_id = false :=
          Bool.eq_false_iff.mpr hc
        rw [if_neg hc, hcf]
        cases hla : pyDictLookup apiD e.tmdb_id with
        | none =>
            have := h e (List.mem_cons_self e rest) hcf
            rw [hla] at this
            simp at this
        | some a =>
            obtain ⟨ls, hls⟩ := ih (i + 1) hrest
            exact ⟨i :: ls, by rw [hls]; simp [hla, Except.map]⟩

/- ------------------------------------------------------------------ -/
/- Claim theorems about the list exclusions settings                  -/
/- ------------------------------------------------------------------ -/

/-- C4: for every remote list exclusion whose `tmdb_id` key is absent
from the local collection, `ListExclusionsSettings.delete_remote` with
`delete_unmanaged = true` issues exactly one delete call carrying that
entry's remote-assigned id (the delete trace is the per-entry
`filterMap` over the unmanaged entries, and its length equals the
number of unmanaged entries), and the returned changed flag is `true`
iff such an entry exists; with `delete_unmanaged = false` it issues
zero delete calls and returns `false`. -/
theorem ListExclusionsSettings.delete_remote_gating
    (localDefs remoteDefs : List ListExclusion)
    (apiListing : List ApiExclusion)
    (hr : (remoteDefs.map ListExclusion.tmdb_id).Nodup)
    (ha : ∀ e ∈ remoteDefs,
      localDefs.any (fun l => l.tmdb_id = e.tmdb_id) = false →
      (pyDictLookup (pyDictOfList ApiExclusion.tmdb_id apiListing)
          e.tmdb_id).isSome = true) :
    (∃ ls : List Int,
      ListExclusionsSettings.delete_remote true localDefs remoteDefs
          apiListing =
        Except.ok
          (!(remoteDefs.filter (fun e =>
              !(localDefs.any (fun l => l.tmdb_id = e.tmdb_id)))).isEmpty,
            (remoteDefs.filter (fun e =>
              !(localDefs.any (fun l => l.tmdb_id = e.tmdb_id)))).filterMap
              (fun e => (pyDictLookup
                  (pyDictOfList ApiExclusion.tmdb_id apiListing)
                  e.tmdb_id).map
                (fun a => ExclusionApiCall.delete a.id)),
            ls)) ∧
    ((remoteDefs.filter (fun e =>
        !(localDefs.any (fun l => l.tmdb_id = e.tmdb_id)))).filterMap
        (fun e => (pyDictLookup (pyDictOfList ApiExclusion.tmdb_id
            apiListing) e.tmdb_id).map
          (fun a => ExclusionApiCall.delete a.id))).length =
      (remoteDefs.filter (fun e =>
        !(localDefs.any (fun l => l.tmdb_id = e.tmdb_id)))).length ∧
    (∃ ls : List Int,
      ListExclusionsSettings.delete_remote false localDefs remoteDefs
          apiListing = Except.ok (false, [], ls)) := by
  have hfun : (fun e : ListExclusion =>
      !(pyDictContains (pyDictOfList ListExclusion.tmdb_id localDefs)
        e.tmdb_id)) =
      (fun e : ListExclusion =>
        !(localDefs.any (fun l => l.tmdb_id = e.tmdb_id))) := by
    funext e
    rw [pyDictContains_ofList]
  have hv : pyDictValues (pyDictOfList ListExclusion.tmdb_id remoteDefs) =
      remoteDefs :=
    pyDictValues_ofList_of_nodup _ _ hr
  have ha2 : ∀ e ∈ remoteDefs,
      pyDictContains (pyDictOfList ListExclusion.tmdb_id localDefs)
        e.tmdb_id = false →
      (pyDictLookup (pyDictOfList ApiExclusion.tmdb_id apiListing)
        e.tmdb_id).isSome = true := by
    intro e he hcf
    apply ha e he
    rw [← pyDictContains_ofList ListExclusion.tmdb_id localDefs e.tmdb_id]
    exact hcf
  refine ⟨?_, ?_, ?_⟩
  · obtain ⟨ls, hls⟩ := ListExclusionsSettings.deleteLoop_spec_true
      (pyDictOfList ListExclusion.tmdb_id localDefs)
      (pyDictOfList ApiExclusion.tmdb_id apiListing) remoteDefs (-1) ha2
    refine ⟨ls, ?_⟩
    unfold ListExclusionsSettings.delete_remote
    rw [hv, hls, hfun]
  · apply filterMap_length_of_isSome
    intro x hx
    rw [List.mem_filter] at hx
    have hx2 := hx.2
    cases hany : localDefs.any (fun l => l.tmdb_id = x.tmdb_id) with
    | false =>
        have hs := ha x hx.1 hany
        cases hsl : pyDictLookup (pyDictOfList ApiExclusion.tmdb_id
            apiListing) x.tmdb_id with
        | none =>
            rw [hsl] at hs
            simp at hs
        | some a => rfl
    | true =>
        rw [hany] at hx2
        exact absurd hx2 (by decide)
  · obtain ⟨ls, hls⟩ := ListExclusionsSettings.deleteLoop_spec_false
      (pyDictOfList ListExclusion.tmdb_id localDefs)
      (pyDictOfList ApiExclusion.tmdb_id apiListing)
      (pyDictValues (pyDictOfList ListExclusion.tmdb_id remoteDefs)) (-1)
    exact ⟨ls, hls⟩

/-- Witness for C4 at a concrete input: one unmanaged remote exclusion,
whose API-listing entry has id 7, is deleted exactly once. -/
theorem ListExclusionsSettings.delete_remote_gating_witness :
    ∃ ls : List Int,
      ListExclusionsSettings.delete_remote true []
          [ListExclusion.mk 5 "t" 1999] [ApiExclusion.mk 7 5 "t" 1999] =
        Except.ok (true, [ExclusionApiCall.delete 7], ls) := by
  obtain ⟨ls, hls⟩ := (ListExclusionsSettings.delete_remote_gating []
    [ListExclusion.mk 5 "t" 1999] [ApiExclusion.mk 7 5 "t" 1999]
    (by decide) (by decide)).1
  exact ⟨ls, hls⟩

/-- C6 counterexample: a local exclusion and a remote exclusion that
share `tmdb_id = 1` but disagree on both title and year are treated as
the same exclusion by the code: `update_remote` issues an in-place
update (not a create) for the local entry, and `delete_remote` with
deletion enabled does not delete the remote entry.  This refutes the
claim that two entries are the same exactly when title, year and source
id all agree: matching ignores title and year. -/
theorem ListExclusionsSettings.matching_title_year_counterexample :
    ListExclusionsSettings.update_remote
        [ListExclusion.mk 1 "A" 2000] [ListExclusion.mk 1 "B" 2001]
        [ApiExclusion.mk 10 1 "B" 2001] =
      Except.ok (true,
        [ExclusionApiCall.update 10 (ListExclusion.mk 1 "A" 2000)]) ∧
    ListExclusionsSettings.delete_remote true
        [ListExclusion.mk 1 "A" 2000] [ListExclusion.mk 1 "B" 2001]
        [ApiExclusion.mk 10 1 "B" 2001] =
      Except.ok (false, [], []) ∧
    (ListExclusion.mk 1 "A" 2000).title ≠
      (ListExclusion.mk 1 "B" 2001).title ∧
    (ListExclusion.mk 1 "A" 2000).year ≠
      (ListExclusion.mk 1 "B" 2001).year ∧
    (ListExclusion.mk 1 "A" 2000).tmdb_id =
      (ListExclusion.mk 1 "B" 2001).tmdb_id := by
  refine ⟨?_, ?_, ?_, ?_, ?_⟩ <;> decide

/-- C6 (amended): matching between local and remote list-exclusion
entries in both `update_remote` and `delete_remote` is by the `tmdb_id`
key alone — a local entry is created iff no remote entry has its
`tmdb_id` (otherwise it is diffed against the `tmdb_id`-matched remote
entry), and a remote entry is a deletion candidate iff no local entry
has its `tmdb_id` — while the remote-assigned integer id is used only
inside the update/delete API calls. -/
theorem ListExclusionsSettings.matching_by_tmdbId
    (localDefs remoteDefs : List ListExclusion)
    (apiListing : List ApiExclusion)
    (hl : (localDefs.map ListExclusion.tmdb_id).Nodup)
    (hr : (remoteDefs.map ListExclusion.tmdb_id).Nodup)
    (hu : ∀ e ∈ localDefs,
      (remoteDefs.find? (fun r => r.tmdb_id = e.tmdb_id)).isSome = true →
      (pyDictLookup (pyDictOfList ApiExclusion.tmdb_id apiListing)
          e.tmdb_id).isSome = true)
    (hd : ∀ e ∈ remoteDefs,
      localDefs.any (fun l => l.tmdb_id = e.tmdb_id) = false →
      (pyDictLookup (pyDictOfList ApiExclusion.tmdb_id apiListing)
          e.tmdb_id).isSome = true) :
    (ListExclusionsSettings.update_remote localDefs remoteDefs apiListing =
      Except.ok
        (localDefs.any (fun e =>
            match remoteDefs.find? (fun r => r.tmdb_id = e.tmdb_id) with
            | none => true
            | some r => exclusionChanged e r),
          localDefs.flatMap (fun e =>
            match remoteDefs.find? (fun r => r.tmdb_id = e.tmdb_id) with
            | none => [ExclusionApiCall.create e]
            | some r =>
                match pyDictLookup (pyDictOfList ApiExclusion.tmdb_id
                    apiListing) e.tmdb_id with
                | none => []
                | some a =>
                    if exclusionChanged e r
                    then [ExclusionApiCall.update a.id e] else []))) ∧
    (∃ ls : List Int,
      ListExclusionsSettings.delete_remote true localDefs remoteDefs
          apiListing =
        Except.ok
          (!(remoteDefs.filter (fun e =>
              !(localDefs.any (fun l => l.tmdb_id = e.tmdb_id)))).isEmpty,
            (remoteDefs.filter (fun e =>
              !(localDefs.any (fun l => l.tmdb_id = e.tmdb_id)))).filterMap
              (fun e => (pyDictLookup
                  (pyDictOfList ApiExclusion.tmdb_id apiListing)
                  e.tmdb_id).map
                (fun a => ExclusionApiCall.delete a.id)),
            ls)) := by
  have hlk : ∀ k : Int,
      pyDictLookup (pyDictOfList ListExclusion.tmdb_id remoteDefs) k =
        remoteDefs.find? (fun r => r.tmdb_id = k) :=
    fun k => pyDictLookup_ofList_of_nodup _ _ hr k
  constructor
  · have hvl : pyDictValues (pyDictOfList ListExclusion.tmdb_id localDefs)
        = localDefs :=
      pyDictValues_ofList_of_nodup _ _ hl
    have hloop := ListExclusionsSettings.updateLoop_spec
      (pyDictOfList ApiExclusion.tmdb_id apiListing)
      (pyDictOfList ListExclusion.tmdb_id remoteDefs) localDefs ?_
    · have hfc : exclusionEntryChanged
          (pyDictOfList ListExclusion.tmdb_id remoteDefs) =
          (fun e : ListExclusion =>
            match remoteDefs.find? (fun r => r.tmdb_id = e.tmdb_id) with
            | none => true
            | some r => exclusionChanged e r) := by
        funext e
        unfold exclusionEntryChanged
        rw [hlk]
      have hfp : exclusionUpdatePlan
          (pyDictOfList ApiExclusion.tmdb_id apiListing)
          (pyDictOfList ListExclusion.tmdb_id remoteDefs) =
          (fun e : ListExclusion =>
            match remoteDefs.find? (fun r => r.tmdb_id = e.tmdb_id) with
            | none => [ExclusionApiCall.create e]
            | some r =>
                match pyDictLookup (pyDictOfList ApiExclusion.tmdb_id
                    apiListing) e.tmdb_id with
                | none => []
                | some a =>
                    if exclusionChanged e r
                    then [ExclusionApiCall.update a.id e] else []) := by
        funext e
        unfold exclusionUpdatePlan
        rw [hlk]
      unfold ListExclusionsSettings.update_remote
      rw [hvl, hloop, hfc, hfp]
    · intro e he hsome
      apply hu e he
      rw [← hlk e.tmdb_id]
      exact hsome
  · have hfun : (fun e : ListExclusion =>
        !(pyDictContains (pyDictOfList ListExclusion.tmdb_id localDefs)
          e.tmdb_id)) =
        (fun e : ListExclusion =>
          !(localDefs.any (fun l => l.tmdb_id = e.tmdb_id))) := by
      funext e
      rw [pyDictContains_ofList]
    have hv : pyDictValues (pyDictOfList ListExclusion.tmdb_id remoteDefs)
        = remoteDefs :=
      pyDictValues_ofList_of_nodup _ _ hr
    have hd2 : ∀ e ∈ remoteDefs,
        pyDictContains (pyDictOfList ListExclusion.tmdb_id localDefs)
          e.tmdb_id = false →
        (pyDictLookup (pyDictOfList ApiExclusion.tmdb_id apiListing)
          e.tmdb_id).isSome = true := by
      intro e he hcf
      apply hd e he
      rw [← pyDictContains_ofList ListExclusion.tmdb_id localDefs
        e.tmdb_id]
      exact hcf
    obtain ⟨ls, hls⟩ := ListExclusionsSettings.deleteLoop_spec_true
      (pyDictOfList ListExclusion.tmdb_id localDefs)
      (pyDictOfList ApiExclusion.tmdb_id apiListing) remoteDefs (-1) hd2
    refine ⟨ls, ?_⟩
    unfold ListExclusionsSettings.delete_remote
    rw [hv, hls, hfun]

/-- Witness for the amended C6 at a concrete input: a local entry whose
`tmdb_id` has no remote match is created. -/
theorem ListExclusionsSettings.matching_by_tmdbId_witness :
    ListExclusionsSettings.update_remote [ListExclusion.mk 2 "X" 2020]
        [] [] =
      Except.ok (true,
        [ExclusionApiCall.create (ListExclusion.mk 2 "X" 2020)]) := by
  exact (ListExclusionsSettings.matching_by_tmdbId
    [ListExclusion.mk 2 "X" 2020] [] [] (by decide) (by decide)
    (by decide) (by decide)).1

/-- C9: evaluating the delete-tracking loop on a remote snapshot with
two unmanaged exclusions (and `delete_unmanaged` disabled) shows the
log-path indices are `-1` then `0`: the index starts at `-1` and
`i -= -1` increments it, so the indices are not successive negative
values — the second one, `0`, is not negative — while deletions and the
changed flag are unaffected by the index. -/
theorem ListExclusionsSettings.delete_remote_logIndex_nonneg :
    ListExclusionsSettings.delete_remote false []
        [ListExclusion.mk 1 "x" 2000, ListExclusion.mk 2 "y" 2001] [] =
      Except.ok (false, [], [-1, 0]) ∧ ¬ ((0 : Int) < 0) := by
  refine ⟨?_, ?_⟩ <;> decide

/-- C10: in `ListExclusionsSettings.update_remote`, membership is
tested against the remote snapshot dict while the resource id is read
by unguarded indexing into the fresh API listing dict; whenever some
local entry's `tmdb_id` is present in the remote snapshot but absent
from the fresh listing, the call raises `KeyError` instead of creating
or skipping the entry. -/
theorem ListExclusionsSettings.update_remote_keyError
    (localDefs remoteDefs : List ListExclusion)
    (apiListing : List ApiExclusion)
    (hl : (localDefs.map ListExclusion.tmdb_id).Nodup)
    (hex : ∃ e ∈ localDefs,
      (pyDictLookup (pyDictOfList ListExclusion.tmdb_id remoteDefs)
          e.tmdb_id).isSome = true ∧
      pyDictLookup (pyDictOfList ApiExclusion.tmdb_id apiListing)
          e.tmdb_id = none) :
    ∃ k : Int,
      ListExclusionsSettings.update_remote localDefs remoteDefs
          apiListing = Except.error (PyErr.keyError k) ∧
      (pyDictLookup (pyDictOfList ListExclusion.tmdb_id remoteDefs)
          k).isSome = true ∧
      pyDictLookup (pyDictOfList ApiExclusion.tmdb_id apiListing) k =
        none := by
  have hex2 : ∃ e ∈ pyDictValues
      (pyDictOfList ListExclusion.tmdb_id localDefs),
      (pyDictLookup (pyDictOfList ListExclusion.tmdb_id remoteDefs)
          e.tmdb_id).isSome = true ∧
      pyDictLookup (pyDictOfList ApiExclusion.tmdb_id apiListing)
          e.tmdb_id = none := by
    rw [pyDictValues_ofList_of_nodup _ _ hl]
    exact hex
  obtain ⟨k, hk, h1, h2⟩ := ListExclusionsSettings.updateLoop_keyError
    (pyDictOfList ApiExclusion.tmdb_id apiListing)
    (pyDictOfList ListExclusion.tmdb_id remoteDefs)
    (pyDictValues (pyDictOfList ListExclusion.tmdb_id localDefs)) hex2
  refine ⟨k, ?_, h1, h2⟩
  unfold ListExclusionsSettings.update_remote
  exact hk

/-- Witness for C10 at a concrete input: the snapshot knows `tmdb_id 3`
but the fresh listing is empty, so the call raises `KeyError`. -/
theorem ListExclusionsSettings.update_remote_keyError_witness :
    ∃ k : Int,
      ListExclusionsSettings.update_remote [ListExclusion.mk 3 "m" 2010]
          [ListExclusion.mk 3 "n" 2011] [] =
        Except.error (PyErr.keyError k) ∧
      (pyDictLookup (pyDictOfList ListExclusion.tmdb_id
          [ListExclusion.mk 3 "n" 2011]) k).isSome = true ∧
      pyDictLookup (pyDictOfList ApiExclusion.tmdb_id
          ([] : List ApiExclusion)) k = none := by
  exact ListExclusionsSettings.update_remote_keyError
    [ListExclusion.mk 3 "m" 2010] [ListExclusion.mk 3 "n" 2011] []
    (by decide) (by decide)
